import Mathlib

/-!
Shallow embedding of the fourtracks recording engine.

The definitions below are translated from the TypeScript source:
 - `ScriptProcessorRecorder` (block-callback capture strategy),
 - `AudioBufferRecorder` (AudioWorklet capture strategy) together with
   the worklet processor in `public/recorder-worklet.js`,
 - `MediaRecorderWrapper` (container/codec capture strategy),
 - `LevelMonitor.calculateLevels`,
 - `PlaybackManager.start`,
 - `AudioEngine` (tracks, gain resolution, recording guard, playback).

Float samples and clock times are modelled as rationals, level arithmetic
(which takes a square root) over the reals.  JavaScript typed arrays are
modelled as Lean lists; `Float32Array.prototype.set` becomes `setAt`,
which overwrites a segment of the destination list and (like the source
operation on an in-bounds copy) preserves the destination length.
-/

namespace FourTracks

/-- The result record delivered by every capture strategy
(`RecordingBuffer` in `src/audio/types.ts`). -/
structure RecordingBuffer where
  trackId : Nat
  sampleRate : ℚ
  numberOfChannels : Nat
  length : Nat
  channelData : List (List ℚ)
  deriving Repr, DecidableEq

/-- `dst.set(src, off)` on typed arrays: overwrite `dst` at positions
`off .. off + src.length - 1` with the elements of `src`, leaving the
length of `dst` unchanged. -/
def setAt (dst src : List ℚ) (off : Nat) : List ℚ :=
  (List.range dst.length).map fun i =>
    if off ≤ i ∧ i < off + src.length then src.getD (i - off) 0 else dst.getD i 0

/-! ## ScriptProcessorRecorder (block-callback capture strategy) -/

/-- Mutable state of a `ScriptProcessorRecorder` instance.  `channelCount`
is the channel count requested at `start` (used to size the processor
node); `recordingBuffer` holds the defensively copied chunks in push
order (one entry per channel per audio-process event). -/
structure ScriptState where
  sampleRate : ℚ
  bufferSize : Nat
  hasProcessor : Bool
  isRecording : Bool
  recordingBuffer : List (List ℚ)
  recordingStartTime : ℚ
  channelCount : Nat
  deriving Repr, DecidableEq

namespace ScriptState

/-- A freshly constructed recorder (constructor of
`ScriptProcessorRecorder`). -/
def init (sampleRate : ℚ) (bufferSize : Nat) : ScriptState :=
  { sampleRate := sampleRate
    bufferSize := bufferSize
    hasProcessor := false
    isRecording := false
    recordingBuffer := []
    recordingStartTime := 0
    channelCount := 2 }

/-- `ScriptProcessorRecorder.start(channelCount)` at audio-clock time
`now`: throws (`none`) when already recording, otherwise creates the
processor, marks recording, stamps the start time and clears the chunk
accumulator. -/
def start (s : ScriptState) (chCount : Nat) (now : ℚ) : Option ScriptState :=
  if s.isRecording then none
  else some { s with
    hasProcessor := true
    isRecording := true
    recordingStartTime := now
    recordingBuffer := []
    channelCount := chCount }

/-- One `onaudioprocess` callback: for each input channel a defensive
copy of the platform buffer is pushed onto `recordingBuffer` (invalid
samples are patched from the previous sample; copying itself preserves
the values we model, so the pushed chunk is the channel data). -/
def audioProcess (s : ScriptState) (inputChannels : List (List ℚ)) : ScriptState :=
  if s.isRecording then
    { s with recordingBuffer := s.recordingBuffer ++ inputChannels }
  else s

end ScriptState

/-- One iteration of the inner copy loop of `organizeChannelData`: copy
chunk `i` at the running offset unless it would overflow the
destination. -/
def organizeStep (chunks : List (List ℚ)) (totalLength : Nat)
    (acc : List ℚ × Nat) (i : Nat) : List ℚ × Nat :=
  let chunk := chunks.getD i []
  if acc.2 + chunk.length ≤ totalLength then
    (setAt acc.1 chunk acc.2, acc.2 + chunk.length)
  else acc

/-- `ScriptProcessorRecorder.organizeChannelData(numberOfChannels,
duration)`: one destination array per channel, sized from elapsed time ×
sample rate; chunks `ch, ch + n, ch + 2n, …` are copied in order, a
chunk that would overflow the destination is skipped. -/
def organizeChannelData (sampleRate : ℚ) (chunks : List (List ℚ))
    (numberOfChannels : Nat) (duration : ℚ) : List (List ℚ) :=
  let totalLength : Nat := (⌊duration * sampleRate⌋).toNat
  (List.range numberOfChannels).map fun ch =>
    let idxs := (List.range chunks.length).filter fun i => i % numberOfChannels = ch % numberOfChannels ∧ ch ≤ i
    (idxs.foldl (organizeStep chunks totalLength) (List.replicate totalLength 0, 0)).1

/-- `ScriptProcessorRecorder.stop()` at audio-clock time `now`: silent
no-op unless recording with a live processor; otherwise builds the
`RecordingBuffer` (channel count hard-coded to 2, length from elapsed
time × sample rate), tears the node down and invokes `onComplete` with
the buffer (returned in the second component). -/
def scriptStop (s : ScriptState) (now : ℚ) : ScriptState × Option RecordingBuffer :=
  if s.isRecording ∧ s.hasProcessor then
    let duration := now - s.recordingStartTime
    let numberOfChannels := 2
    let channelData := organizeChannelData s.sampleRate s.recordingBuffer numberOfChannels duration
    let buffer : RecordingBuffer :=
      { trackId := 0
        sampleRate := s.sampleRate
        numberOfChannels := numberOfChannels
        length := (⌊duration * s.sampleRate⌋).toNat
        channelData := channelData }
    ({ s with isRecording := false, hasProcessor := false }, some buffer)
  else (s, none)

/-! ## AudioWorklet capture strategy

`public/recorder-worklet.js` (`RecorderProcessor.process`) delivers
multi-channel chunks; `AudioBufferRecorder.handleRecordingComplete`
reassembles them.  A chunk is its `channelData`: a list of per-channel
sample lists. -/

/-- The chunk built by one `RecorderProcessor.process` call while
recording: a defensive element-by-element copy of the first
`min(input.length, channelCount)` input channels. -/
def workletProcessChunk (input : List (List ℚ)) (channelCount : Nat) : List (List ℚ) :=
  input.take (min input.length channelCount)

/-- One iteration of the copy loop of `handleRecordingComplete`:
overwrite every destination channel that the chunk provides at the
running offset, then advance the offset by the chunk's first-channel
length. -/
def workletCopyStep (acc : List (List ℚ) × Nat) (c : List (List ℚ)) : List (List ℚ) × Nat :=
  ((acc.1.mapIdx fun ch dst =>
      match c.getD ch [] with
      | [] => dst
      | src => setAt dst src acc.2),
    acc.2 + (c.headD []).length)

/-- `AudioBufferRecorder.handleRecordingComplete(recordedData)`: returns
early (no `onComplete`) on zero chunks; otherwise sizes each channel
destination by the summed first-channel chunk lengths and copies the
chunks in order at a running offset. -/
def handleRecordingComplete (sampleRate : ℚ)
    (recordedData : List (List (List ℚ))) : Option RecordingBuffer :=
  if recordedData = [] then none
  else
    let numberOfChannels := (recordedData.headD []).length
    let totalLength := (recordedData.map fun c => (c.headD []).length).sum
    let channelData :=
      (recordedData.foldl workletCopyStep
        ((List.range numberOfChannels).map fun _ => List.replicate totalLength 0, 0)).1
    some
      { trackId := 0
        sampleRate := sampleRate
        numberOfChannels := numberOfChannels
        length := (channelData.headD []).length
        channelData := channelData }

/-! ## MediaRecorderWrapper (container capture strategy)

Encoded blobs are opaque; we model each as a `Nat` token.  The decode
step (`AudioContext.decodeAudioData`) is an external collaborator passed
in as a function that may fail. -/

/-- A decoded `AudioBuffer` as produced by the platform decode step. -/
structure DecodedAudio where
  sampleRate : ℚ
  numberOfChannels : Nat
  length : Nat
  channelData : List (List ℚ)
  deriving Repr, DecidableEq

/-- Mutable state of a `MediaRecorderWrapper` instance. -/
structure MediaState where
  recordedChunks : List Nat
  isRecording : Bool
  isProcessing : Bool
  hasMediaRecorder : Bool
  hasMediaStream : Bool
  inputConnected : Bool
  hasProgressInterval : Bool
  recordingStartTime : ℚ
  channelCount : Nat
  deriving Repr, DecidableEq

namespace MediaState

/-- A freshly constructed wrapper. -/
def init : MediaState :=
  { recordedChunks := []
    isRecording := false
    isProcessing := false
    hasMediaRecorder := false
    hasMediaStream := false
    inputConnected := false
    hasProgressInterval := false
    recordingStartTime := 0
    channelCount := 2 }

/-- `MediaRecorderWrapper.cleanup()`: disconnect the input, stop the
stream tracks, clear the chunk accumulator only when not processing,
drop the recorder. -/
def cleanup (s : MediaState) : MediaState :=
  { s with
    inputConnected := false
    hasMediaStream := false
    recordedChunks := if s.isProcessing then s.recordedChunks else []
    hasMediaRecorder := false }

/-- `MediaRecorderWrapper.stop()`: no-op unless recording with a live
recorder; otherwise clears the recording flag, stops progress
reporting, sets the `isProcessing` guard, requests remaining data and
stops the platform recorder (whose `onstop` later runs
`processRecording`).  Nodes are deliberately not torn down here. -/
def stop (s : MediaState) : MediaState :=
  if s.isRecording ∧ s.hasMediaRecorder then
    { s with isRecording := false, hasProgressInterval := false, isProcessing := true }
  else s

/-- `MediaRecorderWrapper.processRecording()`: early return (no
completion, no cleanup) on zero chunks; otherwise concatenate the
chunks into one blob, clear the accumulator, decode asynchronously and
on success invoke `onComplete` with the decoded data; on decode failure
only a console error is produced.  The `finally` block clears
`isProcessing` and then runs `cleanup`.  The second component is the
buffer passed to `onComplete`, if any. -/
def processRecording (s : MediaState)
    (decode : List Nat → Except Unit DecodedAudio) : MediaState × Option RecordingBuffer :=
  if s.recordedChunks = [] then
    ({ s with isProcessing := false }, none)
  else
    let s₁ := { s with recordedChunks := [] }
    match decode s.recordedChunks with
    | Except.ok audioBuffer =>
      let buffer : RecordingBuffer :=
        { trackId := 0
          sampleRate := audioBuffer.sampleRate
          numberOfChannels := audioBuffer.numberOfChannels
          length := audioBuffer.length
          channelData := audioBuffer.channelData }
      (cleanup { s₁ with isProcessing := false }, some buffer)
    | Except.error _ =>
      (cleanup { s₁ with isProcessing := false }, none)

/-- `MediaRecorderWrapper.dispose()`: when the asynchronous decode is
still in flight (`isProcessing`), skip all teardown; otherwise stop and
clean up. -/
def dispose (s : MediaState) : MediaState :=
  if s.isProcessing then s
  else cleanup (stop s)

end MediaState

/-! ## LevelMonitor -/

/-- The single pass of `LevelMonitor.calculateLevels` over the sample
buffer: accumulate the running absolute maximum and the sum of squares. -/
def levelLoop (data : List ℚ) : ℚ × ℚ :=
  data.foldl (fun (a : ℚ × ℚ) x => (max a.1 |x|, a.2 + x * x)) (0, 0)

/-- `LevelMonitor.calculateLevels(data).peak`: the accumulated absolute
maximum clamped to at most 1. -/
def calculatePeak (data : List ℚ) : ℚ :=
  min 1 (levelLoop data).1

/-- `LevelMonitor.calculateLevels(data).rms`:
`min(1, sqrt(sum / data.length))`, the only irrational value in the
pipeline (the square root is taken over the reals). -/
noncomputable def calculateRms (data : List ℚ) : ℝ :=
  min 1 (Real.sqrt (((levelLoop data).2 / (data.length : ℚ) : ℚ) : ℝ))

/-! ## Tracks and the engine -/

/-- A mixer track (`Track` in `src/audio/types.ts`); the stored buffer
is the playable buffer built from a completed `RecordingBuffer`. -/
structure Track where
  id : Nat
  audioBuffer : Option RecordingBuffer
  isRecording : Bool
  isPlaying : Bool
  isMuted : Bool
  isSolo : Bool
  volume : ℚ
  pan : ℚ
  deriving Repr, DecidableEq

/-- `AudioEngineState` in `src/audio/types.ts`. -/
inductive EngineState where
  | idle
  | recording
  | playing
  | paused
  | stopped
  deriving Repr, DecidableEq

/-- Events emitted upward by the engine that the claims observe. -/
inductive EngineEvent where
  | errorEvent
  | stateChanged (s : EngineState)
  | recordingComplete (trackId : Nat)
  deriving Repr, DecidableEq

/-- Errors thrown synchronously by `AudioEngine.startRecording`. -/
inductive EngineError where
  | notInitialized
  | recordingInProgress
  deriving Repr, DecidableEq

/-- The `AudioEngine` state the claims need: the track map (keys are the
track ids, distinct by construction), the per-track gain-node values
held by the `AudioNodeManager` (as a total function over ids; `nodeIds`
lists the ids that actually have nodes), the current recorder reference
and the state machine. -/
structure Engine where
  initialized : Bool
  state : EngineState
  tracks : List Track
  nodeIds : List Nat
  gains : Nat → ℚ
  recorder : Option Nat
  currentRecordingTrack : Nat
  hasMediaStream : Bool
  hasInputSource : Bool

namespace Engine

/-- `initializeTracks` + `initialize`: four tracks with volume 1 and all
flags clear; `createTrackNodes(4)` gives every track a gain node whose
value starts at 1. -/
def init : Engine :=
  { initialized := true
    state := EngineState.idle
    tracks := (List.range 4).map fun i =>
      { id := i + 1
        audioBuffer := none
        isRecording := false
        isPlaying := false
        isMuted := false
        isSolo := false
        volume := 1
        pan := 0 }
    nodeIds := [1, 2, 3, 4]
    gains := fun _ => 1
    recorder := none
    currentRecordingTrack := 0
    hasMediaStream := false
    hasInputSource := false }

/-- `AudioNodeManager.setTrackGain(trackId, gain)`: clamps to `[0, 1]`
and writes the gain node value, provided the node exists. -/
def setTrackGain (e : Engine) (trackId : Nat) (gain : ℚ) : Engine :=
  if trackId ∈ e.nodeIds then
    { e with gains := fun j => if j = trackId then max 0 (min 1 gain) else e.gains j }
  else e

/-- `AudioEngine.updateTrackGain(trackId)`: effective gain is 0 when the
track is muted or some track is soloed and this one is not, else the
track volume; applied to the track's gain node. -/
def updateTrackGain (e : Engine) (trackId : Nat) : Engine :=
  match e.tracks.find? (fun t => t.id = trackId) with
  | none => e
  | some track =>
    let hasSolo := e.tracks.any fun t => t.isSolo
    let gain := if track.isMuted ∨ (hasSolo ∧ ¬track.isSolo) then 0 else track.volume
    e.setTrackGain trackId gain

/-- `AudioEngine.setTrackVolume`: clamp the volume into `[0, 1]`, store
it on the track and reapply that track's gain. -/
def setTrackVolume (e : Engine) (trackId : Nat) (volume : ℚ) : Engine :=
  match e.tracks.find? (fun t => t.id = trackId) with
  | none => e
  | some _ =>
    let e' := { e with tracks := e.tracks.map fun (t : Track) =>
      if t.id = trackId then { t with volume := max 0 (min 1 volume) } else t }
    e'.updateTrackGain trackId

/-- `AudioEngine.setTrackPan`: clamp the pan into `[-1, 1]` and store it
(the pan node is not part of gain resolution). -/
def setTrackPan (e : Engine) (trackId : Nat) (pan : ℚ) : Engine :=
  match e.tracks.find? (fun t => t.id = trackId) with
  | none => e
  | some _ =>
    { e with tracks := e.tracks.map fun (t : Track) =>
      if t.id = trackId then { t with pan := max (-1) (min 1 pan) } else t }

/-- `AudioEngine.muteTrack`: set the mute flag and reapply that track's
gain. -/
def muteTrack (e : Engine) (trackId : Nat) (mute : Bool) : Engine :=
  match e.tracks.find? (fun t => t.id = trackId) with
  | none => e
  | some _ =>
    let e' := { e with tracks := e.tracks.map fun (t : Track) =>
      if t.id = trackId then { t with isMuted := mute } else t }
    e'.updateTrackGain trackId

/-- `AudioEngine.soloTrack`: set the solo flag, then reapply the gain of
every track (solo on one track silences all the others). -/
def soloTrack (e : Engine) (trackId : Nat) (solo : Bool) : Engine :=
  match e.tracks.find? (fun t => t.id = trackId) with
  | none => e
  | some _ =>
    let e' := { e with tracks := e.tracks.map fun (t : Track) =>
      if t.id = trackId then { t with isSolo := solo } else t }
    (e'.tracks.map fun t => t.id).foldl (fun acc i => acc.updateTrackGain i) e'

end Engine

/-- `PlaybackManager.start(tracks, options)`: after stopping any prior
playback, start one source for every track that has a stored buffer, is
not muted and has a track node, setting its `isPlaying` flag; returns
the updated tracks and the number of voices started. -/
def pmStart (tracks : List Track) (nodeIds : List Nat) : List Track × Nat :=
  let starts := fun (t : Track) => t.audioBuffer.isSome ∧ ¬t.isMuted = true ∧ t.id ∈ nodeIds
  ((tracks.map fun (t : Track) =>
      if t.audioBuffer.isSome ∧ ¬t.isMuted = true ∧ t.id ∈ nodeIds then { t with isPlaying := true } else t),
    (tracks.filter fun t => decide (starts t)).length)

namespace Engine

/-- `AudioEngine.startPlayback(options)`: throws when uninitialized;
otherwise starts the playback manager over the track map and moves to
the Playing state exactly when at least one voice started.  Note the
source performs NO check of the Recording state here.  Returns the
engine and the active voice count (`none` models the thrown error). -/
def startPlayback (e : Engine) : Option (Engine × Nat) :=
  if e.initialized then
    let (tracks, activeCount) := pmStart e.tracks e.nodeIds
    let e' := { e with tracks := tracks }
    some (if activeCount > 0 then { e' with state := EngineState.playing } else e', activeCount)
  else none

/-- The synchronous guard sequence at the top of
`AudioEngine.startRecording`: not-initialized error first, then the
recording-in-progress error exactly when the recorder reference is
non-null (the engine state is not consulted). -/
def startRecordingGuard (e : Engine) : Option EngineError :=
  if ¬e.initialized then some EngineError.notInitialized
  else if e.recorder.isSome then some EngineError.recordingInProgress
  else none

/-- `AudioEngine.stopRecording()`: warns and returns when the recorder
reference is null; otherwise asks the recorder to stop, clears the
current track's recording flag and moves to Idle.  The recorder
reference itself is deliberately NOT cleared here. -/
def stopRecording (e : Engine) : Engine :=
  match e.recorder with
  | none => e
  | some _ =>
    { e with
      tracks := e.tracks.map fun (t : Track) =>
        if t.id = e.currentRecordingTrack then { t with isRecording := false } else t
      state := EngineState.idle }

/-- `AudioEngine.processRecordingBuffer(trackId, buffer)` (the
completion callback): build the playable buffer, assign it to the
track, emit `recordingComplete`, dispose and null the recorder and
release the input stream; when the track id is unknown nothing happens
(the recorder is kept). -/
def processRecordingBuffer (e : Engine) (trackId : Nat) (buffer : RecordingBuffer) :
    Engine × List EngineEvent :=
  if ¬e.initialized then (e, [])
  else
    match e.tracks.find? (fun t => t.id = trackId) with
    | none => (e, [])
    | some _ =>
      ({ e with
          tracks := e.tracks.map fun (t : Track) =>
            if t.id = trackId then { t with audioBuffer := some buffer } else t
          recorder := none
          hasMediaStream := false
          hasInputSource := false },
        [EngineEvent.recordingComplete trackId])

/-- What the engine observes from a capture strategy's completion path:
when the strategy delivers a buffer the complete callback runs
`processRecordingBuffer`; when it delivers nothing (e.g. the container
strategy's decode failed) the engine is never entered and nothing is
emitted. -/
def recorderCompletionStep (e : Engine) (trackId : Nat)
    (result : Option RecordingBuffer) : Engine × List EngineEvent :=
  match result with
  | none => (e, [])
  | some buffer => e.processRecordingBuffer trackId buffer

end Engine

/-- A mute/solo/volume/pan control operation on the engine. -/
inductive ControlOp where
  | volume (trackId : Nat) (v : ℚ)
  | pan (trackId : Nat) (p : ℚ)
  | mute (trackId : Nat) (b : Bool)
  | solo (trackId : Nat) (b : Bool)
  deriving Repr, DecidableEq

/-- Apply one control operation. -/
def applyOp (e : Engine) : ControlOp → Engine
  | ControlOp.volume i v => e.setTrackVolume i v
  | ControlOp.pan i p => e.setTrackPan i p
  | ControlOp.mute i b => e.muteTrack i b
  | ControlOp.solo i b => e.soloTrack i b

/-- Run a sequence of control operations. -/
def runOps (e : Engine) (ops : List ControlOp) : Engine :=
  ops.foldl applyOp e

/-- The gain-resolution formula applied by `updateTrackGain`: 0 when the
track is muted or when some track is soloed and this one is not, else
the track's own volume. -/
def effectiveGain (tracks : List Track) (t : Track) : ℚ :=
  if t.isMuted ∨ ((tracks.any fun u => u.isSolo) ∧ ¬t.isSolo) then 0 else t.volume

/-- The value `updateTrackGain i` leaves in gain slot `i`: the clamped
effective gain when track `i` exists and has a node, the old value
otherwise. -/
def gainTarget (e : Engine) (i : Nat) : ℚ :=
  match e.tracks.find? fun u => u.id = i with
  | some t => if i ∈ e.nodeIds then max 0 (min 1 (effectiveGain e.tracks t)) else e.gains i
  | none => e.gains i

/-- The engine invariant maintained by every control operation: track
ids are distinct, volumes are clamped, every track has a node, and
every gain node holds the track's effective gain. -/
def GainInv (e : Engine) : Prop :=
  ((e.tracks.map fun t => t.id).Nodup) ∧
  (∀ t ∈ e.tracks, 0 ≤ t.volume ∧ t.volume ≤ 1) ∧
  (∀ t ∈ e.tracks, t.id ∈ e.nodeIds) ∧
  (∀ t ∈ e.tracks, e.gains t.id = effectiveGain e.tracks t)

/-- A small recorded buffer reused by several concrete scenarios. -/
def demoBuffer : RecordingBuffer :=
  { trackId := 0
    sampleRate := 8
    numberOfChannels := 2
    length := 4
    channelData := [[0, 0, 0, 0], [0, 0, 0, 0]] }

/-- A decode step that always fails (malformed/unsupported data). -/
def decodeFail : List Nat → Except Unit DecodedAudio :=
  fun _ => Except.error ()

/-- The concrete buffer delivered by the block-callback strategy when
stopped immediately (elapsed time 0, no chunks). -/
def scriptBufW : RecordingBuffer :=
  { trackId := 0
    sampleRate := 8
    numberOfChannels := 2
    length := 0
    channelData := [[], []] }

/-- A decoded buffer used by concrete container-strategy scenarios. -/
def abW : DecodedAudio :=
  { sampleRate := 8, numberOfChannels := 2, length := 4
    channelData := [[0, 0, 0, 0], [0, 0, 0, 0]] }

/-- A container-strategy state mid-stop, with one encoded chunk. -/
def mediaStW : MediaState :=
  { MediaState.init with isProcessing := true, recordedChunks := [3] }

/-- A decode step that succeeds with `abW`. -/
def decodeOkW : List Nat → Except Unit DecodedAudio :=
  fun _ => Except.ok abW

/-- The engine in the Recording state with a previously recorded buffer
on track 2 (the claim C4 scenario). -/
def engineCxC4 : Engine :=
  { Engine.init with
    state := EngineState.recording
    recorder := some 1
    currentRecordingTrack := 1
    tracks := Engine.init.tracks.map fun (t : Track) =>
      if t.id = 2 then { t with audioBuffer := some demoBuffer } else t }

/-- The two-track spec scenario: both tracks hold buffers and track 1
is muted. -/
def tracksC8 : List Track :=
  [{ id := 1, audioBuffer := some demoBuffer, isRecording := false, isPlaying := false,
     isMuted := true, isSolo := false, volume := 1, pan := 0 },
   { id := 2, audioBuffer := some demoBuffer, isRecording := false, isPlaying := false,
     isMuted := false, isSolo := false, volume := 1, pan := 0 }]

/-! ## Theorems -/

theorem setAt_length (dst src : List ℚ) (off : Nat) :
    (setAt dst src off).length = dst.length := by
  simp [setAt]

/-- Claim C7: if `dispose()` is called on the container-based strategy
while its processing flag is set (the asynchronous decode still in
flight), the call performs no teardown at all: the accumulated chunks
are not cleared, no stop or cleanup happens, and the strategy state is
left completely unchanged. -/
theorem claim_C7_dispose_noop (s : MediaState) (h : s.isProcessing = true) :
    MediaState.dispose s = s := by
  simp [MediaState.dispose, h]

/-- Witness for C7 at a concrete in-flight state. -/
theorem claim_C7_witness :
    ({ MediaState.init with isProcessing := true, recordedChunks := [5, 7] } : MediaState).isProcessing = true ∧
      MediaState.dispose { MediaState.init with isProcessing := true, recordedChunks := [5, 7] } =
        { MediaState.init with isProcessing := true, recordedChunks := [5, 7] } :=
  ⟨rfl, claim_C7_dispose_noop _ rfl⟩

/-- Claim C2 (evaluation at the failing input): with zero chunks
delivered before stop, the worklet strategy's completion handler
returns early without ever invoking `onComplete`, and so does the
container strategy's `processRecording`; only the block-callback
strategy still delivers a (zero-audio) result.  This contradicts the
claimed `onComplete fires exactly once for all N ≥ 0` (and the repo's
own test `handles empty recording data`, which expects the complete
callback to fire with a zero-length buffer). -/
theorem claim_C2_code_eval :
    handleRecordingComplete 44100 [] = none ∧
    (({ MediaState.init with isProcessing := true } : MediaState).processRecording decodeFail).2 = none ∧
    ((scriptStop { ScriptState.init 8 4096 with isRecording := true, hasProcessor := true } 1).2.map
      (fun b => (b.numberOfChannels, b.length))) = some (2, 8) := by
  refine ⟨rfl, rfl, ?_⟩
  simp only [scriptStop, ScriptState.init]
  norm_num
  decide

/-- Claim C6 counterexample: requesting capture with channel count 1 on
the block-callback strategy yields a result with 2 channels, not
`min(1, 2) = 1` — `ScriptProcessorRecorder.stop` hard-codes the result
channel count to 2 regardless of the requested count. -/
theorem claim_C6_counterexample :
    (((ScriptState.init 8 4096).start 1 0).map fun s =>
        (scriptStop s 1).2.map RecordingBuffer.numberOfChannels) = some (some 2) ∧
      Nat.min 1 2 = 1 ∧ (2 : Nat) ≠ 1 := by
  refine ⟨?_, rfl, by decide⟩
  simp only [ScriptState.start, ScriptState.init, scriptStop]
  norm_num

/-- Claim C6 as amended: the result channel count is not
`min(requested, 2)`.  The block-callback strategy always delivers
exactly 2 channels regardless of the requested count; the worklet
strategy records `min(source channels, requested)` channels per chunk
(not capped at 2); the container strategy delivers whatever channel
count the decode step produced. -/
theorem claim_C6_amended :
    (∀ (s : ScriptState) (now : ℚ) (r : RecordingBuffer),
        (scriptStop s now).2 = some r →
        r.numberOfChannels = 2 ∧ r.channelData.length = 2) ∧
    (∀ (input : List (List ℚ)) (channelCount : Nat),
        (workletProcessChunk input channelCount).length = min input.length channelCount) ∧
    (∀ (s : MediaState) (decode : List Nat → Except Unit DecodedAudio) (ab : DecodedAudio),
        s.recordedChunks ≠ [] → decode s.recordedChunks = Except.ok ab →
        (s.processRecording decode).2.map RecordingBuffer.numberOfChannels =
          some ab.numberOfChannels) := by
  refine ⟨?_, ?_, ?_⟩
  · intro s now r h
    rw [scriptStop] at h
    split at h
    · simp only [Prod.snd, Option.some.injEq] at h
      subst h
      exact ⟨rfl, by simp [organizeChannelData]⟩
    · simp at h
  · intro input channelCount
    simp [workletProcessChunk]
  · intro s decode ab hne hok
    rw [MediaState.processRecording]
    simp only [hne, if_false, hok]
    rfl

/-- Evaluation of the block-callback strategy stopped immediately after
starting (no chunks, zero elapsed time). -/
theorem scriptStop_empty_eval :
    (scriptStop { ScriptState.init 8 4096 with isRecording := true, hasProcessor := true } 0).2 =
      some scriptBufW := by
  simp [scriptStop, ScriptState.init, scriptBufW, organizeChannelData]

/-- Witness for C6 at concrete inputs for all three strategies. -/
theorem claim_C6_witness :
    (scriptStop { ScriptState.init 8 4096 with isRecording := true, hasProcessor := true } 0).2 =
        some scriptBufW ∧
      scriptBufW.numberOfChannels = 2 ∧ scriptBufW.channelData.length = 2 ∧
      (workletProcessChunk [[0], [0], [0], [0]] 4).length = min 4 4 ∧
      (mediaStW.processRecording decodeOkW).2.map RecordingBuffer.numberOfChannels = some 2 := by
  refine ⟨scriptStop_empty_eval, (claim_C6_amended.1 _ _ _ scriptStop_empty_eval).1,
    (claim_C6_amended.1 _ _ _ scriptStop_empty_eval).2, ?_, ?_⟩
  · exact claim_C6_amended.2.1 [[0], [0], [0], [0]] 4
  · exact claim_C6_amended.2.2 mediaStW decodeOkW abW (by decide) rfl

/-- Claim C4 counterexample: `AudioEngine.startPlayback` performs no
Recording-state check.  With the engine Recording and track 2 holding a
buffer, `startPlayback` starts one voice, sets track 2's `isPlaying`
and moves the engine to Playing — contradicting the claim that
playback cannot start while Recording. -/
theorem claim_C4_counterexample :
    engineCxC4.state = EngineState.recording ∧
      (engineCxC4.startPlayback.map fun p => (p.1.state, p.2, p.1.tracks.map Track.isPlaying)) =
        some (EngineState.playing, 1, [false, true, false, false]) := by
  exact ⟨rfl, by decide⟩

/-- Claim C4 as amended: `AudioEngine.startPlayback` does not consult
the Recording state.  While the engine is Recording, a call to
`startPlayback` transitions the engine to Playing (starting voices)
whenever at least one track has a stored buffer, is not muted and has a
track node, and leaves the state at Recording only when no such track
exists; exclusion of playback during recording is enforced solely by
the UI layer (the play button is disabled while recording). -/
theorem startPlayback_state (e : Engine) (hinit : e.initialized = true) :
    (e.startPlayback.map fun p => p.1.state) =
      some (if 0 < (pmStart e.tracks e.nodeIds).2 then EngineState.playing else e.state) := by
  rw [Engine.startPlayback]
  simp only [hinit, if_true]
  by_cases h : 0 < (pmStart e.tracks e.nodeIds).2 <;> simp [h]

theorem pmStart_count_pos_iff (tracks : List Track) (nodeIds : List Nat) :
    0 < (pmStart tracks nodeIds).2 ↔
      ∃ t ∈ tracks, t.audioBuffer.isSome = true ∧ t.isMuted = false ∧ t.id ∈ nodeIds := by
  have hrfl : (pmStart tracks nodeIds).2 =
      (tracks.filter fun t =>
        decide (t.audioBuffer.isSome ∧ ¬t.isMuted = true ∧ t.id ∈ nodeIds)).length := rfl
  rw [hrfl, List.length_pos, ne_eq, List.filter_eq_nil_iff]
  push_neg
  simp [Bool.not_eq_true]

theorem claim_C4_amended (e : Engine) (hinit : e.initialized = true)
    (hrec : e.state = EngineState.recording) :
    ((∃ t ∈ e.tracks, t.audioBuffer.isSome = true ∧ t.isMuted = false ∧ t.id ∈ e.nodeIds) →
      (e.startPlayback.map fun p => p.1.state) = some EngineState.playing) ∧
    ((∀ t ∈ e.tracks, ¬(t.audioBuffer.isSome = true ∧ t.isMuted = false ∧ t.id ∈ e.nodeIds)) →
      (e.startPlayback.map fun p => p.1.state) = some EngineState.recording) := by
  have hs := startPlayback_state e hinit
  constructor
  · intro hex
    rw [hs, if_pos ((pmStart_count_pos_iff _ _).mpr hex)]
  · intro hnone
    have hneg : ¬0 < (pmStart e.tracks e.nodeIds).2 := by
      rw [pmStart_count_pos_iff]
      rintro ⟨t, ht, h1, h2, h3⟩
      exact hnone t ht ⟨h1, h2, h3⟩
    rw [hs, if_neg hneg, hrec]

/-- Witness for C4 at the concrete Recording-state engine. -/
theorem claim_C4_witness :
    engineCxC4.initialized = true ∧ engineCxC4.state = EngineState.recording ∧
      (engineCxC4.startPlayback.map fun p => p.1.state) = some EngineState.playing := by
  refine ⟨rfl, rfl, (claim_C4_amended engineCxC4 rfl rfl).1 ?_⟩
  refine ⟨{ id := 2, audioBuffer := some demoBuffer, isRecording := false, isPlaying := false,
            isMuted := false, isSolo := false, volume := 1, pan := 0 }, ?_, by decide⟩
  decide

theorem foldl_pair_decomp (l : List ℚ) (a b : ℚ) :
    l.foldl (fun (p : ℚ × ℚ) x => (max p.1 |x|, p.2 + x * x)) (a, b) =
      (l.foldl (fun m x => max m |x|) a, l.foldl (fun s x => s + x * x) b) := by
  induction l generalizing a b with
  | nil => rfl
  | cons x xs ih => simpa using ih (max a |x|) (b + x * x)

theorem foldr_max_abs_nonneg (l : List ℚ) :
    0 ≤ (l.map fun x => |x|).foldr max 0 := by
  induction l with
  | nil => simp
  | cons x xs ih =>
    simp only [List.map_cons, List.foldr_cons, le_max_iff]
    exact Or.inr ih

theorem foldl_max_abs (l : List ℚ) (a : ℚ) (ha : 0 ≤ a) :
    l.foldl (fun m x => max m |x|) a = max a ((l.map fun x => |x|).foldr max 0) := by
  induction l generalizing a with
  | nil => simp [max_eq_left ha]
  | cons x xs ih =>
    have h1 : (0 : ℚ) ≤ max a |x| := le_trans ha (le_max_left _ _)
    simp only [List.foldl_cons, List.map_cons, List.foldr_cons]
    rw [ih (max a |x|) h1, max_assoc]

theorem foldl_sum_sq (l : List ℚ) (s : ℚ) :
    l.foldl (fun acc x => acc + x * x) s = s + (l.map fun x => x * x).sum := by
  induction l generalizing s with
  | nil => simp
  | cons x xs ih =>
    simp only [List.foldl_cons, List.map_cons, List.sum_cons]
    rw [ih (s + x * x)]
    ring

theorem levelLoop_eq (data : List ℚ) :
    levelLoop data =
      ((data.map fun x => |x|).foldr max 0, (data.map fun x => x * x).sum) := by
  rw [levelLoop, foldl_pair_decomp, foldl_max_abs data 0 le_rfl, foldl_sum_sq]
  simp [max_eq_right (foldr_max_abs_nonneg data)]

theorem foldr_max_replicate (n : Nat) (c : ℚ) (hc : 0 ≤ c) :
    (List.replicate (n + 1) c).foldr max 0 = c := by
  induction n with
  | zero => simp [max_eq_left hc]
  | succ n ih => simp only [List.replicate_succ, List.foldr_cons] at ih ⊢; rw [ih, max_self]

/-- Claim C9: the level computation returns
`peak = min(1, maximum absolute sample value)` and
`rms = min(1, sqrt(mean of squared samples))`; a constant buffer of
value 1/2 and length 1000 yields peak and RMS exactly 1/2, and the
buffer `[1.5, -2.0, 0.5]` yields peak clamped to 1. -/
theorem claim_C9 (data : List ℚ) (h : data ≠ []) :
    (calculatePeak data = min 1 ((data.map fun x => |x|).foldr max 0) ∧
      calculateRms data =
        min 1 (Real.sqrt ((((data.map fun x => x * x).sum / (data.length : ℚ) : ℚ)) : ℝ))) ∧
    calculatePeak (List.replicate 1000 (1 / 2 : ℚ)) = 1 / 2 ∧
    calculateRms (List.replicate 1000 (1 / 2 : ℚ)) = 1 / 2 ∧
    calculatePeak [3 / 2, -2, 1 / 2] = 1 := by
  have hgen : ∀ d : List ℚ,
      calculatePeak d = min 1 ((d.map fun x => |x|).foldr max 0) ∧
      calculateRms d =
        min 1 (Real.sqrt ((((d.map fun x => x * x).sum / (d.length : ℚ) : ℚ)) : ℝ)) := by
    intro d
    constructor
    · rw [calculatePeak, levelLoop_eq]
    · rw [calculateRms, levelLoop_eq]
  refine ⟨hgen data, ?_, ?_, ?_⟩
  · rw [(hgen _).1]
    have habs : |(1 / 2 : ℚ)| = 1 / 2 := abs_of_nonneg (by norm_num)
    rw [List.map_replicate, habs, foldr_max_replicate 999 (1 / 2) (by norm_num)]
    norm_num
  · rw [(hgen _).2]
    have hsq : ((List.replicate 1000 (1 / 2 : ℚ)).map fun x => x * x) =
        List.replicate 1000 (1 / 4 : ℚ) := by
      rw [List.map_replicate]; norm_num
    rw [hsq, List.sum_replicate, List.length_replicate]
    have hq : ((1000 : ℕ) • (1 / 4 : ℚ)) / (((1000 : ℕ) : ℚ)) = 1 / 4 := by
      push_cast [nsmul_eq_mul]
      norm_num
    rw [hq]
    have hr : (((1 / 4 : ℚ)) : ℝ) = (1 / 2 : ℝ) ^ 2 := by push_cast; norm_num
    rw [hr, Real.sqrt_sq (by norm_num : (0 : ℝ) ≤ 1 / 2)]
    norm_num
  · rw [(hgen _).1]
    have h1 : |(3 / 2 : ℚ)| = 3 / 2 := abs_of_nonneg (by norm_num)
    have h2 : |(-2 : ℚ)| = 2 := by rw [abs_of_nonpos (by norm_num)]; norm_num
    have h3 : |(1 / 2 : ℚ)| = 1 / 2 := abs_of_nonneg (by norm_num)
    simp only [List.map_cons, List.map_nil, List.foldr_cons, List.foldr_nil, h1, h2, h3]
    rw [max_eq_left (by norm_num : (0 : ℚ) ≤ 1 / 2), max_eq_left (by norm_num : (1 / 2 : ℚ) ≤ 2),
      max_eq_right (by norm_num : (3 / 2 : ℚ) ≤ 2), min_eq_left (by norm_num : (1 : ℚ) ≤ 2)]

/-- Witness for C9 at the concrete one-element buffer. -/
theorem claim_C9_witness :
    ([(1 / 2 : ℚ)] ≠ []) ∧
      calculatePeak [(1 / 2 : ℚ)] = min 1 (([(1 / 2 : ℚ)].map fun x => |x|).foldr max 0) :=
  ⟨by simp, (claim_C9 [(1 / 2 : ℚ)] (by simp)).1.1⟩

theorem organizeStep_length (chunks : List (List ℚ)) (T : Nat) (acc : List ℚ × Nat) (i : Nat) :
    ((organizeStep chunks T acc i).1).length = acc.1.length := by
  rw [organizeStep]
  split <;> simp [setAt_length]

theorem foldl_organizeStep_length (chunks : List (List ℚ)) (T : Nat) (idxs : List Nat)
    (acc : List ℚ × Nat) :
    ((idxs.foldl (organizeStep chunks T) acc).1).length = acc.1.length := by
  induction idxs generalizing acc with
  | nil => rfl
  | cons i is ih => rw [List.foldl_cons, ih, organizeStep_length]

theorem organizeChannelData_mem_length (sampleRate : ℚ) (chunks : List (List ℚ))
    (n : Nat) (duration : ℚ) :
    ∀ c ∈ organizeChannelData sampleRate chunks n duration,
      c.length = (⌊duration * sampleRate⌋).toNat := by
  intro c hc
  simp only [organizeChannelData, List.mem_map] at hc
  obtain ⟨ch, _, rfl⟩ := hc
  rw [foldl_organizeStep_length]
  simp

/-- The block-callback variant: every delivered channel array has the
same length, the result always has 2 channel arrays, and the length is
`⌊elapsed × sampleRate⌋`, within one sample of
`round(elapsed × sampleRate)`. -/
theorem scriptStop_result (s : ScriptState) (now : ℚ) (r : RecordingBuffer)
    (h : (scriptStop s now).2 = some r)
    (hnn : 0 ≤ (now - s.recordingStartTime) * s.sampleRate) :
    r.channelData.length = 2 ∧
    (∀ c ∈ r.channelData, c.length = r.length) ∧
    |(r.length : ℤ) - round ((now - s.recordingStartTime) * s.sampleRate)| ≤ 1 := by
  rw [scriptStop] at h
  split at h
  · simp only [Option.some.injEq] at h
    subst h
    refine ⟨by simp [organizeChannelData], organizeChannelData_mem_length _ _ _ _, ?_⟩
    set x := (now - s.recordingStartTime) * s.sampleRate with hx
    have hfl : ((⌊x⌋.toNat : ℤ)) = ⌊x⌋ := Int.toNat_of_nonneg (Int.floor_nonneg.mpr hnn)
    simp only [RecordingBuffer.length, hfl]
    rw [round_eq]
    have h1 : ⌊x⌋ ≤ ⌊x + 1 / 2⌋ := Int.floor_le_floor (by linarith)
    have h2 : ⌊x + 1 / 2⌋ ≤ ⌊x⌋ + 1 := by
      rw [show (⌊x⌋ + 1 : ℤ) = ⌊x + 1⌋ from (Int.floor_add_one x).symm]
      exact Int.floor_le_floor (by linarith)
    rw [abs_le]
    omega
  · simp at h

theorem workletCopyStep_length (acc : List (List ℚ) × Nat) (c : List (List ℚ)) :
    (workletCopyStep acc c).1.length = acc.1.length := by
  simp [workletCopyStep]

theorem workletCopyStep_mem_length (acc : List (List ℚ) × Nat) (c : List (List ℚ)) (T : Nat)
    (h : ∀ d ∈ acc.1, d.length = T) :
    ∀ d ∈ (workletCopyStep acc c).1, d.length = T := by
  intro d hd
  simp only [workletCopyStep] at hd
  obtain ⟨i, hi, rfl⟩ := List.mem_iff_getElem.mp hd
  have hi' : i < acc.1.length := by simpa using hi
  have hg := List.get_mapIdx acc.1
    (fun ch dst => match c.getD ch [] with | [] => dst | src => setAt dst src acc.2) i hi' hi
  rw [List.get_eq_getElem] at hg
  rw [hg]
  have hmem := List.get_mem acc.1 i hi'
  cases hcg : c.getD i [] with
  | nil => simpa [hcg] using h _ hmem
  | cons y ys =>
    simp only [hcg]
    rw [setAt_length]
    exact h _ hmem

theorem foldl_workletCopyStep_mem_length (cs : List (List (List ℚ)))
    (acc : List (List ℚ) × Nat) (T : Nat) (h : ∀ d ∈ acc.1, d.length = T) :
    ∀ d ∈ (cs.foldl workletCopyStep acc).1, d.length = T := by
  induction cs generalizing acc with
  | nil => exact h
  | cons c cs ih =>
    rw [List.foldl_cons]
    exact ih _ (workletCopyStep_mem_length _ _ _ h)

theorem foldl_workletCopyStep_length (cs : List (List (List ℚ)))
    (acc : List (List ℚ) × Nat) :
    (cs.foldl workletCopyStep acc).1.length = acc.1.length := by
  induction cs generalizing acc with
  | nil => rfl
  | cons c cs ih => rw [List.foldl_cons, ih, workletCopyStep_length]

/-- The worklet variant: a delivered result's channel arrays all have
the identical length equal to the summed (first-channel) chunk lengths
— the elapsed recording time never enters this code path. -/
theorem handleRecordingComplete_result (sampleRate : ℚ)
    (recordedData : List (List (List ℚ)))
    (hne : recordedData ≠ []) (hhead : recordedData.headD [] ≠ []) :
    ∃ r, handleRecordingComplete sampleRate recordedData = some r ∧
      (∀ c ∈ r.channelData, c.length = (recordedData.map fun c => (c.headD []).length).sum) ∧
      r.length = (recordedData.map fun c => (c.headD []).length).sum ∧
      r.numberOfChannels = (recordedData.headD []).length := by
  rw [handleRecordingComplete]
  rw [if_neg hne]
  set n := (recordedData.headD []).length with hn
  set T := (recordedData.map fun c => (c.headD []).length).sum with hT
  set channelData :=
    (recordedData.foldl workletCopyStep ((List.range n).map fun _ => List.replicate T 0, 0)).1
    with hcd
  have hinit : ∀ d ∈ ((List.range n).map fun (_ : Nat) => List.replicate T (0 : ℚ)), d.length = T := by
    intro d hd
    simp only [List.mem_map] at hd
    obtain ⟨_, _, rfl⟩ := hd
    simp
  have hmem : ∀ d ∈ channelData, d.length = T :=
    foldl_workletCopyStep_mem_length _ _ _ hinit
  have hlen : channelData.length = n := by
    rw [hcd, foldl_workletCopyStep_length]
    simp
  have hpos : 0 < n := by
    rw [hn]
    exact List.length_pos.mpr hhead
  have hcne : channelData ≠ [] := by
    intro hnil
    rw [hnil] at hlen
    simp at hlen
    omega
  obtain ⟨c0, cs', hc0⟩ := List.exists_cons_of_ne_nil hcne
  refine ⟨_, rfl, hmem, ?_, rfl⟩
  show (channelData.headD []).length = T
  rw [hc0]
  exact hmem c0 (by rw [hc0]; exact List.mem_cons_self _ _)

/-- The container variant: the delivered result is exactly the decoded
buffer; assuming the decode step produces well-formed channel data, all
channel arrays share the decoded length. -/
theorem mediaProcessRecording_ok (s : MediaState)
    (decode : List Nat → Except Unit DecodedAudio) (ab : DecodedAudio)
    (hne : s.recordedChunks ≠ []) (hok : decode s.recordedChunks = Except.ok ab)
    (hwf : ∀ c ∈ ab.channelData, c.length = ab.length) :
    ∃ r, (s.processRecording decode).2 = some r ∧
      (∀ c ∈ r.channelData, c.length = r.length) ∧ r.length = ab.length := by
  rw [MediaState.processRecording]
  simp only [hne, if_false, hok]
  exact ⟨_, rfl, hwf, rfl⟩

/-- Claim C1 as amended: every delivered result has channel arrays of
one identical length, but only the block-callback variant derives that
length from elapsed time × sample rate (within 1 sample of the rounded
product).  The worklet variant's length is the summed delivered chunk
lengths and the container variant's length is the decoded buffer's
length — neither is tied to the elapsed audio-clock time. -/
theorem claim_C1_amended :
    (∀ (s : ScriptState) (now : ℚ) (r : RecordingBuffer),
        (scriptStop s now).2 = some r →
        0 ≤ (now - s.recordingStartTime) * s.sampleRate →
        r.channelData.length = 2 ∧ (∀ c ∈ r.channelData, c.length = r.length) ∧
          |(r.length : ℤ) - round ((now - s.recordingStartTime) * s.sampleRate)| ≤ 1) ∧
    (∀ (sampleRate : ℚ) (recordedData : List (List (List ℚ))),
        recordedData ≠ [] → recordedData.headD [] ≠ [] →
        ∃ r, handleRecordingComplete sampleRate recordedData = some r ∧
          (∀ c ∈ r.channelData, c.length = (recordedData.map fun c => (c.headD []).length).sum) ∧
          r.length = (recordedData.map fun c => (c.headD []).length).sum) ∧
    (∀ (s : MediaState) (decode : List Nat → Except Unit DecodedAudio) (ab : DecodedAudio),
        s.recordedChunks ≠ [] → decode s.recordedChunks = Except.ok ab →
        (∀ c ∈ ab.channelData, c.length = ab.length) →
        ∃ r, (s.processRecording decode).2 = some r ∧
          (∀ c ∈ r.channelData, c.length = r.length) ∧ r.length = ab.length) := by
  refine ⟨fun s now r h hnn => scriptStop_result s now r h hnn, ?_, ?_⟩
  · intro sampleRate recordedData hne hhead
    obtain ⟨r, h1, h2, h3, _⟩ := handleRecordingComplete_result sampleRate recordedData hne hhead
    exact ⟨r, h1, h2, h3⟩
  · exact fun s decode ab hne hok hwf => mediaProcessRecording_ok s decode ab hne hok hwf

/-- Claim C1 counterexample: a worklet-variant session that delivered a
single 128-sample chunk while 1 second of audio-clock time elapsed
(start at 0, stop at 1, sample rate 44100) completes with a result of
length 128, which is not within 1 sample of
`round(elapsedSeconds × sampleRate) = 44100`. -/
theorem claim_C1_counterexample :
    ((handleRecordingComplete 44100 [[List.replicate 128 0, List.replicate 128 0]]).map
        RecordingBuffer.length = some 128) ∧
      ¬(|(128 : ℤ) - round (((1 : ℚ) - 0) * 44100)| ≤ 1) := by
  constructor
  · obtain ⟨r, hr, _, hlen, _⟩ :=
      handleRecordingComplete_result 44100 [[List.replicate 128 0, List.replicate 128 0]]
        (by simp) (by simp)
    rw [hr]
    simp [hlen]
  · have hround : round (((1 : ℚ) - 0) * 44100) = 44100 := by
      rw [round_eq]
      norm_num
    rw [hround]
    decide

/-- Witness for C1 at concrete inputs for all three strategies. -/
theorem claim_C1_witness :
    ((scriptStop { ScriptState.init 8 4096 with isRecording := true, hasProcessor := true } 0).2 =
        some scriptBufW ∧
      (0 : ℚ) ≤ ((0 : ℚ) - 0) * 8 ∧
      scriptBufW.channelData.length = 2 ∧
      (∀ c ∈ scriptBufW.channelData, c.length = scriptBufW.length) ∧
      |(scriptBufW.length : ℤ) - round (((0 : ℚ) - 0) * 8)| ≤ 1) ∧
    (∃ r, handleRecordingComplete 8 [[[(0 : ℚ), 0], [0, 0]]] = some r ∧
      (∀ c ∈ r.channelData,
        c.length = ([[[(0 : ℚ), 0], [0, 0]]].map fun c => (c.headD []).length).sum) ∧
      r.length = ([[[(0 : ℚ), 0], [0, 0]]].map fun c => (c.headD []).length).sum) ∧
    (∃ r, (mediaStW.processRecording decodeOkW).2 = some r ∧
      (∀ c ∈ r.channelData, c.length = r.length) ∧ r.length = abW.length) := by
  have hscript := claim_C1_amended.1 _ 0 _ scriptStop_empty_eval (by norm_num [ScriptState.init])
  refine ⟨⟨scriptStop_empty_eval, by norm_num, ?_, ?_, ?_⟩, ?_, ?_⟩
  · exact hscript.1
  · exact hscript.2.1
  · exact hscript.2.2
  · exact claim_C1_amended.2.1 8 [[[(0 : ℚ), 0], [0, 0]]] (by simp) (by simp)
  · exact claim_C1_amended.2.2 mediaStW decodeOkW abW (by decide) rfl (by decide)

/-- Claim C3 as amended: when the container strategy's asynchronous
decode fails, the recording session is abandoned (chunks cleared,
processing flag dropped), `onComplete` is never invoked, so the engine
is never entered: the track's stored buffer is unchanged — but no error
event is emitted anywhere; the failure is only logged to the console. -/
theorem claim_C3_amended (e : Engine) (trackId : Nat) (s : MediaState)
    (decode : List Nat → Except Unit DecodedAudio)
    (hchunks : s.recordedChunks ≠ [])
    (hfail : decode s.recordedChunks = Except.error ()) :
    (s.processRecording decode).2 = none ∧
    (Engine.recorderCompletionStep e trackId (s.processRecording decode).2).2 = [] ∧
    (Engine.recorderCompletionStep e trackId (s.processRecording decode).2).1 = e ∧
    (s.processRecording decode).1.recordedChunks = [] ∧
    (s.processRecording decode).1.isProcessing = false := by
  have h2 : (s.processRecording decode).2 = none := by
    rw [MediaState.processRecording, if_neg hchunks, hfail]
  have hst : (s.processRecording decode).1 =
      MediaState.cleanup { s with recordedChunks := [], isProcessing := false } := by
    rw [MediaState.processRecording, if_neg hchunks, hfail]
  refine ⟨h2, ?_, ?_, ?_, ?_⟩
  · rw [h2]; rfl
  · rw [h2]; rfl
  · rw [hst]; simp [MediaState.cleanup]
  · rw [hst]; simp [MediaState.cleanup]

/-- Claim C3 counterexample: at a concrete failing decode the engine's
emitted event list is empty — in particular it contains no error event,
contradicting the claim that the decode failure is surfaced via an
error event. -/
theorem claim_C3_counterexample :
    (mediaStW.processRecording decodeFail).2 = none ∧
      (Engine.recorderCompletionStep Engine.init 1 (mediaStW.processRecording decodeFail).2).2 = [] ∧
      ¬EngineEvent.errorEvent ∈
        (Engine.recorderCompletionStep Engine.init 1 (mediaStW.processRecording decodeFail).2).2 :=
  ⟨rfl, rfl, fun hmem => List.not_mem_nil _ hmem⟩

/-- Witness for C3 at a concrete failing decode. -/
theorem claim_C3_witness :
    mediaStW.recordedChunks ≠ [] ∧
      (mediaStW.processRecording decodeFail).2 = none ∧
      (Engine.recorderCompletionStep Engine.init 2 (mediaStW.processRecording decodeFail).2).1 =
        Engine.init ∧
      (mediaStW.processRecording decodeFail).1.recordedChunks = [] := by
  have h := claim_C3_amended Engine.init 2 mediaStW decodeFail (by decide) rfl
  exact ⟨by decide, h.1, h.2.2.1, h.2.2.2.1⟩

/-- Claim C8: starting playback starts one voice per track that has a
stored buffer and is not muted (given every track has a node and no
voice is already playing): the resulting `isPlaying` flags are exactly
`bufferPresent && not muted`, and the returned active voice count is
the number of such tracks. -/
theorem claim_C8 (tracks : List Track) (nodeIds : List Nat)
    (hnode : ∀ t ∈ tracks, t.id ∈ nodeIds)
    (hplay : ∀ t ∈ tracks, t.isPlaying = false) :
    ((pmStart tracks nodeIds).1.map fun t => t.isPlaying) =
      (tracks.map fun t => t.audioBuffer.isSome && !t.isMuted) ∧
    (pmStart tracks nodeIds).2 =
      (tracks.filter fun t => t.audioBuffer.isSome && !t.isMuted).length := by
  constructor
  · have hfst : (pmStart tracks nodeIds).1 =
        tracks.map fun t =>
          if t.audioBuffer.isSome ∧ ¬t.isMuted = true ∧ t.id ∈ nodeIds then
            { t with isPlaying := true } else t := rfl
    rw [hfst, List.map_map]
    apply List.map_congr_left
    intro t ht
    by_cases hc : t.audioBuffer.isSome ∧ ¬t.isMuted = true ∧ t.id ∈ nodeIds
    · simp only [Function.comp, if_pos hc]
      obtain ⟨h1, h2, _⟩ := hc
      have hm : t.isMuted = false := by
        cases hmm : t.isMuted
        · rfl
        · exact absurd hmm h2
      simp [h1, hm]
    · simp only [Function.comp, if_neg hc]
      rw [hplay t ht]
      by_cases hb : t.audioBuffer.isSome = true
      · by_cases hmut : t.isMuted = true
        · simp [hmut]
        · exact absurd ⟨hb, hmut, hnode t ht⟩ hc
      · have hbf : t.audioBuffer.isSome = false := by
          cases hbb : t.audioBuffer.isSome
          · rfl
          · exact absurd hbb hb
        simp [hbf]
  · have hsnd : (pmStart tracks nodeIds).2 =
        (tracks.filter fun t =>
          decide (t.audioBuffer.isSome ∧ ¬t.isMuted = true ∧ t.id ∈ nodeIds)).length := rfl
    rw [hsnd]
    congr 1
    apply List.filter_congr
    intro t ht
    by_cases hb : t.audioBuffer.isSome = true
    · by_cases hmut : t.isMuted = true
      · simp [hb, hmut]
      · have hmf : t.isMuted = false := by
          cases hmm : t.isMuted
          · rfl
          · exact absurd hmm hmut
        simp [hb, hmf, hnode t ht]
    · have hbf : t.audioBuffer.isSome = false := by
        cases hbb : t.audioBuffer.isSome
        · rfl
        · exact absurd hbb hb
      simp [hbf]

/-- Witness for C8 at the spec's two-track scenario. -/
theorem claim_C8_witness :
    (∀ t ∈ tracksC8, t.id ∈ [1, 2]) ∧ (∀ t ∈ tracksC8, t.isPlaying = false) ∧
      ((pmStart tracksC8 [1, 2]).1.map fun t => t.isPlaying) = [false, true] ∧
      (pmStart tracksC8 [1, 2]).2 = 1 := by
  have h := claim_C8 tracksC8 [1, 2] (by decide) (by decide)
  refine ⟨by decide, by decide, ?_, ?_⟩
  · rw [h.1]; decide
  · rw [h.2]; decide

/-- Claim C10: after `stopRecording()` the engine is back to Idle but
the recorder reference survives, so `startRecording` is still rejected
with the recording-in-progress error; the guard is exactly the non-null
recorder reference (for any initialized engine), and only
`processRecordingBuffer` — the completion path — clears it, after which
the recording-in-progress rejection is gone. -/
theorem claim_C10 (e : Engine) (r : Nat) (hr : e.recorder = some r)
    (hinit : e.initialized = true) :
    e.stopRecording.state = EngineState.idle ∧
    e.stopRecording.recorder = some r ∧
    e.stopRecording.startRecordingGuard = some EngineError.recordingInProgress ∧
    (∀ e' : Engine, e'.initialized = true →
      (e'.startRecordingGuard = some EngineError.recordingInProgress ↔
        e'.recorder.isSome = true)) ∧
    (∀ (trackId : Nat) (buffer : RecordingBuffer),
      (e.stopRecording.tracks.find? fun t => t.id = trackId).isSome = true →
      (e.stopRecording.processRecordingBuffer trackId buffer).1.recorder = none ∧
      (e.stopRecording.processRecordingBuffer trackId buffer).1.startRecordingGuard ≠
        some EngineError.recordingInProgress) := by
  have hstop : e.stopRecording =
      { e with
        tracks := e.tracks.map fun (t : Track) =>
          if t.id = e.currentRecordingTrack then { t with isRecording := false } else t
        state := EngineState.idle } := by
    rw [Engine.stopRecording, hr]
  have hguard : ∀ e' : Engine, e'.initialized = true →
      (e'.startRecordingGuard = some EngineError.recordingInProgress ↔
        e'.recorder.isSome = true) := by
    intro e' h
    rw [Engine.startRecordingGuard]
    simp only [h]
    cases hrec : e'.recorder <;> simp
  have hi2 : e.stopRecording.initialized = true := by rw [hstop]; exact hinit
  have hr2 : e.stopRecording.recorder = some r := by rw [hstop]; exact hr
  refine ⟨by rw [hstop], hr2, ?_, hguard, ?_⟩
  · exact (hguard e.stopRecording hi2).mpr (by rw [hr2]; rfl)
  · intro trackId buffer hfind
    obtain ⟨t, ht⟩ := Option.isSome_iff_exists.mp hfind
    have hrec : (e.stopRecording.processRecordingBuffer trackId buffer).1.recorder = none := by
      rw [Engine.processRecordingBuffer]
      simp [hi2, ht]
    refine ⟨hrec, ?_⟩
    intro hcontra
    have hinit'' : (e.stopRecording.processRecordingBuffer trackId buffer).1.initialized = true := by
      rw [Engine.processRecordingBuffer]
      simp [hi2, ht]
    have := (hguard _ hinit'').mp hcontra
    rw [hrec] at this
    simp at this

/-- Witness for C10 at the concrete engine of the C4 scenario. -/
theorem claim_C10_witness :
    engineCxC4.recorder = some 1 ∧ engineCxC4.initialized = true ∧
      engineCxC4.stopRecording.state = EngineState.idle ∧
      engineCxC4.stopRecording.recorder = some 1 ∧
      engineCxC4.stopRecording.startRecordingGuard = some EngineError.recordingInProgress ∧
      (engineCxC4.stopRecording.processRecordingBuffer 1 demoBuffer).1.recorder = none := by
  have h := claim_C10 engineCxC4 1 rfl rfl
  exact ⟨rfl, rfl, h.1, h.2.1, h.2.2.1, (h.2.2.2.2 1 demoBuffer (by decide)).1⟩

theorem updateTrackGain_tracks (e : Engine) (i : Nat) :
    (e.updateTrackGain i).tracks = e.tracks := by
  rw [Engine.updateTrackGain]
  cases e.tracks.find? fun t => t.id = i
  · rfl
  · simp only [Engine.setTrackGain]
    split <;> rfl

theorem updateTrackGain_nodeIds (e : Engine) (i : Nat) :
    (e.updateTrackGain i).nodeIds = e.nodeIds := by
  rw [Engine.updateTrackGain]
  cases e.tracks.find? fun t => t.id = i
  · rfl
  · simp only [Engine.setTrackGain]
    split <;> rfl

theorem updateTrackGain_gains (e : Engine) (i j : Nat) :
    (e.updateTrackGain i).gains j = if j = i then gainTarget e i else e.gains j := by
  rw [Engine.updateTrackGain, gainTarget]
  cases hf : e.tracks.find? fun t => t.id = i with
  | none =>
    dsimp only
    by_cases hji : j = i
    · subst hji; simp
    · simp [hji]
  | some t =>
    dsimp only
    simp only [Engine.setTrackGain]
    by_cases hnode : i ∈ e.nodeIds
    · simp only [hnode, if_true]
      rfl
    · simp only [hnode, if_false]
      by_cases hji : j = i
      · subst hji; simp
      · simp [hji]

theorem gainTarget_updateTrackGain (e : Engine) (i j : Nat) :
    gainTarget (e.updateTrackGain i) j = gainTarget e j := by
  rw [gainTarget, gainTarget, updateTrackGain_tracks, updateTrackGain_nodeIds]
  cases hf : e.tracks.find? fun t => t.id = j with
  | none =>
    dsimp only
    rw [updateTrackGain_gains]
    by_cases hji : j = i
    · subst hji
      rw [if_pos rfl, gainTarget, hf]
    · rw [if_neg hji]
  | some t =>
    dsimp only
    by_cases hnode : j ∈ e.nodeIds
    · rw [if_pos hnode, if_pos hnode]
    · rw [if_neg hnode, if_neg hnode, updateTrackGain_gains]
      by_cases hji : j = i
      · subst hji
        rw [if_pos rfl, gainTarget, hf]
        dsimp only
        rw [if_neg hnode]
      · rw [if_neg hji]

theorem foldl_updateTrackGain_tracks (ids : List Nat) (e : Engine) :
    ((ids.foldl (fun acc i => acc.updateTrackGain i) e).tracks) = e.tracks := by
  induction ids generalizing e with
  | nil => rfl
  | cons i ids ih => rw [List.foldl_cons, ih, updateTrackGain_tracks]

theorem foldl_updateTrackGain_nodeIds (ids : List Nat) (e : Engine) :
    ((ids.foldl (fun acc i => acc.updateTrackGain i) e).nodeIds) = e.nodeIds := by
  induction ids generalizing e with
  | nil => rfl
  | cons i ids ih => rw [List.foldl_cons, ih, updateTrackGain_nodeIds]

theorem foldl_updateTrackGain_gains (ids : List Nat) (e : Engine) (j : Nat) :
    ((ids.foldl (fun acc i => acc.updateTrackGain i) e).gains) j =
      if j ∈ ids then gainTarget e j else e.gains j := by
  induction ids generalizing e with
  | nil => simp
  | cons i ids ih =>
    rw [List.foldl_cons, ih, gainTarget_updateTrackGain, updateTrackGain_gains]
    by_cases hji : j = i
    · subst hji
      by_cases hmem : j ∈ ids <;> simp [hmem]
    · by_cases hmem : j ∈ ids <;> simp [hmem, hji]

theorem find?_eq_of_mem_nodup (l : List Track) (hnd : (l.map fun t => t.id).Nodup)
    (t : Track) (ht : t ∈ l) :
    (l.find? fun u => u.id = t.id) = some t := by
  induction l with
  | nil => cases ht
  | cons a as ih =>
    rcases List.mem_cons.mp ht with rfl | hmem
    · exact List.find?_cons_of_pos _ (by simp)
    · have hnd' : (∀ x ∈ as, ¬x.id = a.id) ∧ ((as.map fun t => t.id).Nodup) := by
        simpa using hnd
      have hne : ¬a.id = t.id := fun heq => hnd'.1 t hmem heq.symm
      rw [List.find?_cons_of_neg _ (by simpa using hne)]
      exact ih hnd'.2 hmem

theorem clamp_of_bounds (v : ℚ) (h0 : 0 ≤ v) (h1 : v ≤ 1) : max 0 (min 1 v) = v := by
  rw [min_eq_right h1, max_eq_right h0]

theorem effectiveGain_bounds (tracks : List Track) (t : Track)
    (h0 : 0 ≤ t.volume) (h1 : t.volume ≤ 1) :
    0 ≤ effectiveGain tracks t ∧ effectiveGain tracks t ≤ 1 := by
  rw [effectiveGain]
  split
  · norm_num
  · exact ⟨h0, h1⟩

theorem map_id_of_update (l : List Track) (i : Nat) (f : Track → Track)
    (hid : ∀ t, (f t).id = t.id) :
    ((l.map fun t => if t.id = i then f t else t).map fun t => t.id) = l.map fun t => t.id := by
  rw [List.map_map]
  apply List.map_congr_left
  intro t _
  by_cases h : t.id = i <;> simp [h, hid]

theorem any_solo_of_update (l : List Track) (i : Nat) (f : Track → Track)
    (hsolo : ∀ t, (f t).isSolo = t.isSolo) :
    ((l.map fun t => if t.id = i then f t else t).any fun u => u.isSolo) =
      l.any fun u => u.isSolo := by
  induction l with
  | nil => rfl
  | cons t ts ih =>
    simp only [List.map_cons, List.any_cons, ih]
    by_cases h : t.id = i <;> simp [h, hsolo]

theorem effectiveGain_congr (l l' : List Track) (t t' : Track)
    (hany : (l'.any fun u => u.isSolo) = l.any fun u => u.isSolo)
    (hm : t'.isMuted = t.isMuted) (hs : t'.isSolo = t.isSolo) (hv : t'.volume = t.volume) :
    effectiveGain l' t' = effectiveGain l t := by
  rw [effectiveGain, effectiveGain, hany, hm, hs, hv]

theorem gaininv_update_one (e : Engine) (i : Nat) (f : Track → Track)
    (h : GainInv e)
    (hid : ∀ t, (f t).id = t.id)
    (hsolo : ∀ t, (f t).isSolo = t.isSolo)
    (hvol : ∀ t ∈ e.tracks, 0 ≤ (f t).volume ∧ (f t).volume ≤ 1) :
    GainInv (Engine.updateTrackGain
      { e with tracks := e.tracks.map fun t => if t.id = i then f t else t } i) := by
  obtain ⟨hnd, hbounds, hnode, hgain⟩ := h
  set e₁ : Engine := { e with tracks := e.tracks.map fun t => if t.id = i then f t else t }
    with he₁
  have htr : (e₁.updateTrackGain i).tracks = e₁.tracks := updateTrackGain_tracks _ _
  have hni : (e₁.updateTrackGain i).nodeIds = e₁.nodeIds := updateTrackGain_nodeIds _ _
  have hmapid : (e₁.tracks.map fun t => t.id) = e.tracks.map fun t => t.id :=
    map_id_of_update _ _ _ hid
  have hany : (e₁.tracks.any fun u => u.isSolo) = e.tracks.any fun u => u.isSolo :=
    any_solo_of_update _ _ _ hsolo
  have hmem1 : ∀ t' ∈ e₁.tracks, ∃ t ∈ e.tracks, t' = if t.id = i then f t else t := by
    intro t' ht'
    obtain ⟨t, ht, rfl⟩ := List.mem_map.mp ht'
    exact ⟨t, ht, rfl⟩
  have hb1 : ∀ t' ∈ e₁.tracks, 0 ≤ t'.volume ∧ t'.volume ≤ 1 := by
    intro t' ht'
    obtain ⟨t, ht, rfl⟩ := hmem1 t' ht'
    by_cases hc : t.id = i
    · rw [if_pos hc]; exact hvol t ht
    · rw [if_neg hc]; exact hbounds t ht
  have hn1 : ∀ t' ∈ e₁.tracks, t'.id ∈ e₁.nodeIds := by
    intro t' ht'
    obtain ⟨t, ht, rfl⟩ := hmem1 t' ht'
    have hidq : (if t.id = i then f t else t).id = t.id := by
      by_cases hc : t.id = i <;> simp [hc, hid]
    rw [hidq]
    exact hnode t ht
  refine ⟨?_, ?_, ?_, ?_⟩
  · rw [htr, hmapid]; exact hnd
  · intro t' ht'; rw [htr] at ht'; exact hb1 t' ht'
  · intro t' ht'; rw [htr] at ht'; rw [hni]; exact hn1 t' ht'
  · intro t' ht'
    rw [htr] at ht' ⊢
    rw [updateTrackGain_gains]
    by_cases hji : t'.id = i
    · rw [if_pos hji, gainTarget]
      have hf1 : (e₁.tracks.find? fun u => u.id = i) = some t' := by
        have hfind := find?_eq_of_mem_nodup e₁.tracks (by rw [hmapid]; exact hnd) t' ht'
        rw [hji] at hfind
        exact hfind
      rw [hf1]
      dsimp only
      rw [if_pos (hji ▸ hn1 t' ht')]
      obtain ⟨h0, h1⟩ := hb1 t' ht'
      obtain ⟨he0, he1⟩ := effectiveGain_bounds e₁.tracks t' h0 h1
      exact clamp_of_bounds _ he0 he1
    · rw [if_neg hji]
      obtain ⟨t, ht, heq⟩ := hmem1 t' ht'
      by_cases hc : t.id = i
      · exfalso
        apply hji
        rw [heq, if_pos hc, hid t, hc]
      · rw [if_neg hc] at heq
        subst heq
        have hstep : e₁.gains t'.id = e.gains t'.id := rfl
        rw [hstep, hgain t' ht]
        exact (effectiveGain_congr e.tracks e₁.tracks t' t' hany rfl rfl rfl).symm

theorem gaininv_pan (e : Engine) (i : Nat) (p : ℚ) (h : GainInv e) :
    GainInv (e.setTrackPan i p) := by
  rw [Engine.setTrackPan]
  cases hf : e.tracks.find? fun t => t.id = i with
  | none => exact h
  | some t0 =>
    dsimp only
    obtain ⟨hnd, hbounds, hnode, hgain⟩ := h
    set f : Track → Track := fun t => { t with pan := max (-1) (min 1 p) } with hfdef
    set e₁ : Engine := { e with tracks := e.tracks.map fun t => if t.id = i then f t else t }
      with he₁
    have hmapid : (e₁.tracks.map fun t => t.id) = e.tracks.map fun t => t.id :=
      map_id_of_update _ _ _ (fun t => rfl)
    have hany : (e₁.tracks.any fun u => u.isSolo) = e.tracks.any fun u => u.isSolo :=
      any_solo_of_update _ _ _ (fun t => rfl)
    have hmem1 : ∀ t' ∈ e₁.tracks, ∃ t ∈ e.tracks, t' = if t.id = i then f t else t := by
      intro t' ht'
      obtain ⟨t, ht, rfl⟩ := List.mem_map.mp ht'
      exact ⟨t, ht, rfl⟩
    refine ⟨by rw [hmapid]; exact hnd, ?_, ?_, ?_⟩
    · intro t' ht'
      obtain ⟨t, ht, rfl⟩ := hmem1 t' ht'
      by_cases hc : t.id = i <;> simp only [hc, if_true, if_false] <;> exact hbounds t ht
    · intro t' ht'
      obtain ⟨t, ht, rfl⟩ := hmem1 t' ht'
      have hidq : (if t.id = i then f t else t).id = t.id := by
        by_cases hc : t.id = i <;> simp [hc]
      rw [hidq]
      exact hnode t ht
    · intro t' ht'
      obtain ⟨t, ht, rfl⟩ := hmem1 t' ht'
      have hidq : (if t.id = i then f t else t).id = t.id := by
        by_cases hc : t.id = i <;> simp [hc]
      rw [hidq]
      have hstep : e₁.gains t.id = e.gains t.id := rfl
      rw [hstep, hgain t ht]
      refine (effectiveGain_congr e.tracks e₁.tracks t _ hany ?_ ?_ ?_).symm <;>
        by_cases hc : t.id = i <;> simp [hc]

theorem gaininv_solo (e : Engine) (i : Nat) (b : Bool) (h : GainInv e) :
    GainInv (e.soloTrack i b) := by
  rw [Engine.soloTrack]
  cases hf : e.tracks.find? fun t => t.id = i with
  | none => exact h
  | some t0 =>
    dsimp only
    obtain ⟨hnd, hbounds, hnode, hgain⟩ := h
    set f : Track → Track := fun t => { t with isSolo := b } with hfdef
    set e₁ : Engine := { e with tracks := e.tracks.map fun t => if t.id = i then f t else t }
      with he₁
    set ids := e₁.tracks.map fun t => t.id with hids
    have htr := foldl_updateTrackGain_tracks ids e₁
    have hni := foldl_updateTrackGain_nodeIds ids e₁
    have hmapid : (e₁.tracks.map fun t => t.id) = e.tracks.map fun t => t.id :=
      map_id_of_update _ _ _ (fun t => rfl)
    have hmem1 : ∀ t' ∈ e₁.tracks, ∃ t ∈ e.tracks, t' = if t.id = i then f t else t := by
      intro t' ht'
      obtain ⟨t, ht, rfl⟩ := List.mem_map.mp ht'
      exact ⟨t, ht, rfl⟩
    have hb1 : ∀ t' ∈ e₁.tracks, 0 ≤ t'.volume ∧ t'.volume ≤ 1 := by
      intro t' ht'
      obtain ⟨t, ht, rfl⟩ := hmem1 t' ht'
      by_cases hc : t.id = i <;> simp only [hc, if_true, if_false] <;> exact hbounds t ht
    have hn1 : ∀ t' ∈ e₁.tracks, t'.id ∈ e₁.nodeIds := by
      intro t' ht'
      obtain ⟨t, ht, rfl⟩ := hmem1 t' ht'
      have hidq : (if t.id = i then f t else t).id = t.id := by
        by_cases hc : t.id = i <;> simp [hc]
      rw [hidq]
      exact hnode t ht
    refine ⟨?_, ?_, ?_, ?_⟩
    · rw [htr, hmapid]; exact hnd
    · intro t' ht'; rw [htr] at ht'; exact hb1 t' ht'
    · intro t' ht'; rw [htr] at ht'; rw [hni]; exact hn1 t' ht'
    · intro t' ht'
      rw [htr] at ht' ⊢
      rw [foldl_updateTrackGain_gains]
      have hidmem : t'.id ∈ ids := by rw [hids]; exact List.mem_map_of_mem _ ht'
      rw [if_pos hidmem, gainTarget]
      have hf1 : (e₁.tracks.find? fun u => u.id = t'.id) = some t' :=
        find?_eq_of_mem_nodup e₁.tracks (by rw [hmapid]; exact hnd) t' ht'
      rw [hf1]
      dsimp only
      rw [if_pos (hn1 t' ht')]
      obtain ⟨h0, h1⟩ := hb1 t' ht'
      obtain ⟨he0, he1⟩ := effectiveGain_bounds e₁.tracks t' h0 h1
      exact clamp_of_bounds _ he0 he1

theorem gaininv_applyOp (e : Engine) (op : ControlOp) (h : GainInv e) :
    GainInv (applyOp e op) := by
  cases op with
  | volume i v =>
    rw [applyOp, Engine.setTrackVolume]
    cases hf : e.tracks.find? fun t => t.id = i with
    | none => exact h
    | some t0 =>
      dsimp only
      exact gaininv_update_one e i (fun t => { t with volume := max 0 (min 1 v) }) h
        (fun t => rfl) (fun t => rfl)
        (fun t _ => ⟨le_max_left _ _, max_le (by norm_num) (min_le_left _ _)⟩)
  | pan i p =>
    rw [applyOp]
    exact gaininv_pan e i p h
  | mute i b =>
    rw [applyOp, Engine.muteTrack]
    cases hf : e.tracks.find? fun t => t.id = i with
    | none => exact h
    | some t0 =>
      dsimp only
      exact gaininv_update_one e i (fun t => { t with isMuted := b }) h
        (fun t => rfl) (fun t => rfl)
        (fun t ht => h.2.1 t ht)
  | solo i b =>
    rw [applyOp]
    exact gaininv_solo e i b h

theorem gaininv_init : GainInv Engine.init := by
  refine ⟨by decide, ?_, ?_, ?_⟩
  · intro t ht
    simp only [Engine.init, List.mem_map, List.mem_range] at ht
    obtain ⟨j, hj, rfl⟩ := ht
    norm_num
  · intro t ht
    simp only [Engine.init, List.mem_map, List.mem_range] at ht
    obtain ⟨j, hj, rfl⟩ := ht
    simp only [Engine.init]
    simp only [List.mem_cons, List.not_mem_nil, or_false]
    omega
  · intro t ht
    simp only [Engine.init, List.mem_map, List.mem_range] at ht
    obtain ⟨j, hj, rfl⟩ := ht
    have hany : (Engine.init.tracks.any fun u => u.isSolo) = false := by decide
    rw [effectiveGain, hany]
    norm_num
    rfl

theorem gaininv_runOps (ops : List ControlOp) : GainInv (runOps Engine.init ops) := by
  have hstep : ∀ (l : List ControlOp) (e : Engine), GainInv e → GainInv (l.foldl applyOp e) := by
    intro l
    induction l with
    | nil => exact fun e h => h
    | cons op l ih =>
      intro e h
      rw [List.foldl_cons]
      exact ih _ (gaininv_applyOp e op h)
  exact hstep ops _ gaininv_init

/-- Claim C5: after any sequence of mute/solo/volume/pan control
operations from the engine's initial state, every track's gain node
holds exactly: 0 if the track is muted, else 0 if some track is soloed
and this track is not, else the track's own volume.  The particular
cases in the claim (soloing exactly one track silences all others
regardless of their mute flags, and unsoloing restores `0 if muted else
volume`) are instances of this formula. -/
theorem claim_C5 (ops : List ControlOp) (trackId : Nat) :
    match (runOps Engine.init ops).tracks.find? (fun t => t.id = trackId) with
    | some t =>
        (runOps Engine.init ops).gains trackId =
          if t.isMuted then 0
          else if ((runOps Engine.init ops).tracks.any fun u => u.isSolo) ∧ ¬t.isSolo then 0
          else t.volume
    | none => True := by
  cases hf : (runOps Engine.init ops).tracks.find? (fun t => t.id = trackId) with
  | none => trivial
  | some t =>
    dsimp only
    have hinv := gaininv_runOps ops
    have hmem : t ∈ (runOps Engine.init ops).tracks := List.mem_of_find?_eq_some hf
    have hid : t.id = trackId := by
      have := List.find?_some hf
      simpa using this
    have hgain := hinv.2.2.2 t hmem
    rw [hid] at hgain
    rw [hgain, effectiveGain]
    by_cases hm : t.isMuted
    · simp [hm]
    · by_cases hs : ((runOps Engine.init ops).tracks.any fun u => u.isSolo) ∧ ¬t.isSolo
      · simp [hm, hs]
      · simp [hm, hs]

end FourTracks
